import Mathlib

/-!
Shallow embedding of the scim2-rs core (oxidecomputer/scim2-rs): the
in-memory provider store (`src/core/src/in_memory_provider_store.rs`), the
PATCH engine (`src/core/src/patch.rs`), the filter parser
(`src/core/src/query_params.rs`) and the error shapes
(`src/core/src/response.rs`), together with theorems checking the
specification's claims about them.

Rust `String` is modelled by Lean `String`; the operations that Rust
performs on strings (trim, to_lowercase, split, strip prefix and suffix)
are re-implemented here as structurally recursive functions on `List Char`
so that every definition evaluates inside the kernel.  `BTreeMap` is
modelled as an association list with the map operations used by the code
(first-match get, insert-or-overwrite, remove, iterate over all values).
`Utc::now()` is modelled by an explicit `now : Nat` parameter, and
`Uuid::new_v4()` by an explicit fresh-id parameter.  The store's
`Mutex`-guarded in-place mutation is modelled by returning the resulting
state from every operation, on the error path as well, which is exactly
what an early `return Err(..)` leaves behind in the Rust code.
-/

namespace Scim

/-- Decidable equality for `Except`, used to evaluate the embedded
operations at concrete inputs. -/
instance {ε α : Type} [DecidableEq ε] [DecidableEq α] : DecidableEq (Except ε α) := fun x y =>
  match x, y with
  | .ok a, .ok b =>
    if h : a = b then isTrue (by rw [h])
    else isFalse (by intro he; cases he; exact h rfl)
  | .error a, .error b =>
    if h : a = b then isTrue (by rw [h])
    else isFalse (by intro he; cases he; exact h rfl)
  | .ok _, .error _ => isFalse (by intro he; cases he)
  | .error _, .ok _ => isFalse (by intro he; cases he)

/-- ASCII lower-casing of a character list, modelling Rust `to_lowercase`
on the ASCII subset (Lean `Char.toLower` lowers exactly the ASCII
upper-case letters). -/
def lowerList (cs : List Char) : List Char := cs.map Char.toLower

/-- ASCII lower-casing of a string. -/
def lowerStr (s : String) : String := ⟨lowerList s.data⟩

/-- Rust `str::trim` on a character list: whitespace removed from both
ends. -/
def trimList (cs : List Char) : List Char :=
  ((cs.dropWhile Char.isWhitespace).reverse.dropWhile Char.isWhitespace).reverse

/-- Whether `tok` is a leading segment of `cs`. -/
def tokLeads : List Char → List Char → Bool
  | [], _ => true
  | _ :: _, [] => false
  | a :: xs, b :: ys => a = b && tokLeads xs ys

/-- Fuelled worker for `splitOnTok`; the fuel bounds the number of steps
and is never exhausted when it starts at `cs.length + 1`. -/
def splitTok (sep : List Char) : Nat → List Char → List Char → List (List Char)
  | 0, cs, acc => [acc.reverse ++ cs]
  | _ + 1, [], acc => [acc.reverse]
  | fuel + 1, c :: cs, acc =>
    if tokLeads sep (c :: cs) then
      acc.reverse :: splitTok sep fuel (List.drop sep.length (c :: cs)) []
    else
      splitTok sep fuel cs (c :: acc)

/-- Rust `str::split(sep)` collected into a vector: the maximal list of
segments between non-overlapping left-to-right occurrences of `sep`. -/
def splitOnTok (sep cs : List Char) : List (List Char) :=
  splitTok sep (cs.length + 1) cs []

/-- Rust `str::strip_prefix`: drop `tok` from the front of `cs` when it
leads, otherwise `none`. -/
def dropLead (tok cs : List Char) : Option (List Char) :=
  if tokLeads tok cs then some (cs.drop tok.length) else none

/-- Rust `str::strip_suffix`: drop `tok` from the end of `cs` when it
trails, otherwise `none`. -/
def dropTrail (tok cs : List Char) : Option (List Char) :=
  (dropLead tok.reverse cs.reverse).map List.reverse

/-- Rust `str::eq_ignore_ascii_case`. -/
def eqIgnoreAsciiCase (a b : String) : Bool := decide (lowerStr a = lowerStr b)

/-- The `is_quoted_value` closure appearing both in
`query_params.rs::parse_filter_param` and `patch.rs::parse_remove_path`:
the value must have length greater than two, start with a double quote and
end with a double quote; the quotes are stripped. -/
def isQuotedValue (v : List Char) : Option (List Char) :=
  if v.length > 2 ∧ v.head? = some '"' ∧ v.getLast? = some '"' then
    some (v.drop 1).dropLast
  else
    none

/-! ## Association-list model of `BTreeMap<String, _>` -/

/-- `BTreeMap::get`: first entry with the given key. -/
def mapGet {α : Type} : List (String × α) → String → Option α
  | [], _ => none
  | (k2, v) :: rest, k => if k2 = k then some v else mapGet rest k

/-- `BTreeMap::insert`: overwrite the entry with the given key, or append
a new entry. -/
def mapInsert {α : Type} : List (String × α) → String → α → List (String × α)
  | [], k, v => [(k, v)]
  | (k2, v2) :: rest, k, v =>
    if k2 = k then (k, v) :: rest else (k2, v2) :: mapInsert rest k v

/-- `BTreeMap::remove`: drop the entry with the given key. -/
def mapRemove {α : Type} : List (String × α) → String → List (String × α)
  | [], _ => []
  | (k2, v2) :: rest, k =>
    if k2 = k then rest else (k2, v2) :: mapRemove rest k

/-- `BTreeMap::get_mut` followed by an assignment: apply `f` to the entry
with the given key, leaving the map unchanged when the key is absent. -/
def mapModify {α : Type} : List (String × α) → String → (α → α) → List (String × α)
  | [], _, _ => []
  | (k2, v2) :: rest, k, f =>
    if k2 = k then (k2, f v2) :: rest else (k2, v2) :: mapModify rest k f

/-! ## Data model (`user.rs`, `group.rs`, `meta.rs`, `response.rs`) -/

/-- `user.rs::UserGroupType`. -/
inductive UserGroupType
  | Direct
  | Indirect
deriving DecidableEq

/-- `user.rs::UserGroup`: one entry of a user's reverse membership list. -/
structure UserGroup where
  memberType : Option UserGroupType
  value : Option String
  display : Option String
deriving DecidableEq

/-- `user.rs::User`. -/
structure User where
  id : String
  name : String
  active : Option Bool
  externalId : Option String
  groups : Option (List UserGroup)
deriving DecidableEq

/-- Modelled from the spec: the current revision of `GroupMember` (its
declaration with the `IdOrdMap` key impl is not under `src/`; the fields
are pinned by the destructuring in `in_memory_provider_store.rs` and
`patch.rs`): a `{type, value}` member reference. -/
structure GroupMember where
  resourceType : Option String
  value : Option String
deriving DecidableEq

/-- Modelled from the spec: the `IdOrdMap` key of a `GroupMember` — the
`IdOrdItem` impl is not under `src/`, but `patch.rs` removes members by
`Some(UniCase::new(value))` and the spec states that member identity
comparison is case-insensitive on the member's id string. -/
def memberKey (m : GroupMember) : Option String := m.value.map lowerStr

/-- Modelled from the spec: the current revision of `Group` (the
`group.rs` under `src/` is a superseded revision without `members`); the
fields are pinned by the struct literals in
`in_memory_provider_store.rs`.  The `IdOrdMap<GroupMember>` member
collection is modelled as a list manipulated only through the keyed
`insertOverwrite` and `removeMember` operations below. -/
structure Group where
  id : String
  displayName : String
  externalId : Option String
  members : Option (List GroupMember)
deriving DecidableEq

/-- `meta.rs::StoredMeta`, with timestamps as abstract `Nat` instants. -/
structure StoredMeta where
  created : Nat
  lastModified : Nat
  version : String
deriving DecidableEq

/-- `meta.rs::StoredParts`. -/
structure StoredParts (R : Type) where
  resource : R
  meta : StoredMeta
deriving DecidableEq

/-- `user.rs::CreateUserRequest`. -/
structure CreateUserRequest where
  name : String
  active : Option Bool
  externalId : Option String
deriving DecidableEq

/-- Modelled from the spec: the current revision of `CreateGroupRequest`
(the one under `src/` is a superseded revision without `members`); the
fields are pinned by the destructuring in `in_memory_provider_store.rs`. -/
structure CreateGroupRequest where
  displayName : String
  externalId : Option String
  members : Option (List GroupMember)
deriving DecidableEq

/-- `response.rs::ErrorType` (`scimType` values).  `invalidSyntax` is
modelled from the spec: `Error::invalid_syntax` is called by
`in_memory_provider_store.rs` but its declaration is in a revision of
`response.rs` not under `src/`; the spec maps invalid PATCH syntax to 400
with `scimType: invalidSyntax`. -/
inductive ErrorType
  | InvalidFilter
  | Uniqueness
  | InvalidSyntax
deriving DecidableEq

/-- `response.rs::Error`: protocol error with HTTP status, optional
`scimType` and detail message. -/
structure Error where
  status : Nat
  errorType : Option ErrorType
  detail : String
deriving DecidableEq

/-- `response.rs::Error::invalid_filter`. -/
def Error.invalid_filter (detail : String) : Error :=
  ⟨400, some ErrorType.InvalidFilter, detail⟩

/-- `response.rs::Error::not_found`. -/
def Error.not_found (id : String) : Error :=
  ⟨404, none, "Resource " ++ id ++ " not found"⟩

/-- `response.rs::Error::conflict`. -/
def Error.conflict (identifier : String) : Error :=
  ⟨409, some ErrorType.Uniqueness, "Resource matching " ++ identifier ++ " exists already"⟩

/-- `response.rs::Error::internal_error`. -/
def Error.internal_error (detail : String) : Error :=
  ⟨500, none, detail⟩

/-- Modelled from the spec: `Error::invalid_syntax`, called by
`in_memory_provider_store.rs` but declared in a revision of `response.rs`
not under `src/`; the spec maps it to 400 with `scimType:
invalidSyntax`. -/
def Error.invalid_syntax (detail : String) : Error :=
  ⟨400, some ErrorType.InvalidSyntax, detail⟩

/-- Modelled from the spec: `ProviderStoreDeleteResult`
(`delete_user(id) -> Deleted | NotFound` in the store contract; the
`provider_store.rs` under `src/` is a superseded revision). -/
inductive ProviderStoreDeleteResult
  | Deleted
  | NotFound
deriving DecidableEq

/-- `utils.rs::ResourceType`. -/
inductive ResourceType
  | User
  | Group
deriving DecidableEq

/-- `utils.rs`: `FromStr` for `ResourceType` (input lower-cased). -/
def ResourceType.from_str (r : String) : Except String ResourceType :=
  if lowerStr r = "user" then .ok .User
  else if lowerStr r = "group" then .ok .Group
  else .error (r ++ " not a valid resource type")

/-- `utils.rs`: `Display` for `ResourceType`. -/
def ResourceType.display : ResourceType → String
  | .User => "User"
  | .Group => "Group"

/-! ## The in-memory provider store (`in_memory_provider_store.rs`)

Every mutating operation returns the resulting `StoreState` alongside its
`Except` result: the Rust code mutates the `Mutex`-guarded state in place,
so an early `return Err(..)` leaves any mutation performed so far in the
store. -/

/-- `in_memory_provider_store.rs::InMemoryProviderStoreState`. -/
structure StoreState where
  users : List (String × StoredParts User)
  groups : List (String × StoredParts Group)
deriving DecidableEq

/-- `InMemoryProviderStoreState::get_group_member`: resolve one member
reference against the current state, filling in the resource type, or
fail (missing value → invalid syntax; unknown id → 404; a group id or an
explicit Group type → internal error, nested groups unsupported). -/
def get_group_member (st : StoreState) (member : GroupMember) : Except Error GroupMember :=
  match member.value with
  | none => .error (Error.invalid_syntax "group member missing value field")
  | some value =>
    match member.resourceType with
    | some rt =>
      match ResourceType.from_str rt with
      | .error e => .error (Error.invalid_syntax e)
      | .ok .User =>
        match mapGet st.users value with
        | none => .error (Error.not_found value)
        | some _ => .ok ⟨some (ResourceType.display .User), some value⟩
      | .ok .Group => .error (Error.internal_error "nested groups not supported")
    | none =>
      match mapGet st.users value, mapGet st.groups value with
      | none, none => .error (Error.not_found value)
      | some _, none => .ok ⟨some (ResourceType.display .User), some value⟩
      | none, some _ => .error (Error.internal_error "nested groups not supported")
      | some _, some _ =>
        .error (Error.internal_error (value ++ " returned a user and group!"))

/-- `create_user`: reject a `userName` already present (exact string
comparison in the source), otherwise insert a fresh user with no groups
and fresh meta.  `newId` stands for `Uuid::new_v4()` and `now` for
`Utc::now()`. -/
def create_user (st : StoreState) (req : CreateUserRequest) (newId : String)
    (now : Nat) : StoreState × Except Error (StoredParts User) :=
  if st.users.any (fun p => p.2.resource.name = req.name) then
    (st, .error (Error.conflict req.name))
  else
    let newUser : StoredParts User :=
      ⟨⟨newId, req.name, req.active, req.externalId, none⟩,
       ⟨now, now, "W/unimplemented"⟩⟩
    ({ st with users := mapInsert st.users newId newUser }, .ok newUser)

/-- `replace_user`: reject a `userName` collision with a different user
(exact string comparison on the name, the stored resource id compared to
`user_id`), 404 when absent, otherwise overwrite the resource keeping the
stored `groups`, `created` and `version`, setting `last_modified` to
`now`. -/
def replace_user (st : StoreState) (userId : String) (req : CreateUserRequest)
    (now : Nat) : StoreState × Except Error (StoredParts User) :=
  if st.users.any (fun p => p.2.resource.name = req.name ∧ p.2.resource.id ≠ userId) then
    (st, .error (Error.conflict ("username " ++ req.name)))
  else
    match mapGet st.users userId with
    | none => (st, .error (Error.not_found userId))
    | some existing =>
      let updated : StoredParts User :=
        ⟨⟨userId, req.name, req.active, req.externalId, existing.resource.groups⟩,
         ⟨existing.meta.created, now, existing.meta.version⟩⟩
      ({ st with users := mapModify st.users userId (fun _ => updated) }, .ok updated)

/-- `delete_user_by_id`: remove the user entry when present; the groups
table is not touched. -/
def delete_user_by_id (st : StoreState) (userId : String) :
    StoreState × ProviderStoreDeleteResult :=
  match mapGet st.users userId with
  | some _ => ({ st with users := mapRemove st.users userId }, .Deleted)
  | none => (st, .NotFound)

/-- The `UserGroup` entry pushed onto a member's reverse list by
`create_group` and `replace_group`. -/
def directEntry (groupId displayName : String) : UserGroup :=
  ⟨some UserGroupType.Direct, some groupId, some displayName⟩

/-- Push `directEntry` onto the `groups` field of the user stored at
`userId` (`get_or_insert_default().push(..)` after a `get_mut` that, in
the source, cannot fail because the member was just resolved). -/
def pushUserGroup (st : StoreState) (userId groupId displayName : String) : StoreState :=
  { st with
    users := mapModify st.users userId (fun sp =>
      { sp with
        resource := { sp.resource with
          groups := some (sp.resource.groups.getD [] ++ [directEntry groupId displayName]) } }) }

/-- The member-resolution loop shared by `create_group` and
`replace_group`: each member is resolved via `get_group_member` and a
reverse entry is pushed onto the resolved user's `groups`; the state is
mutated incrementally, so an error in the middle returns the partially
mutated state together with the error. -/
def addMembers (st : StoreState) (groupId displayName : String) :
    List GroupMember → StoreState × Except Error (List GroupMember)
  | [] => (st, .ok [])
  | m :: rest =>
    match get_group_member st m with
    | .error e => (st, .error e)
    | .ok resolved =>
      let userId := (resolved.value).getD ""
      let st2 := pushUserGroup st userId groupId displayName
      match addMembers st2 groupId displayName rest with
      | (st3, .ok ms) => (st3, .ok (resolved :: ms))
      | (st3, .error e) => (st3, .error e)

/-- `create_group`: reject a `displayName` already present (exact string
comparison), resolve the requested members (pushing reverse entries as it
goes), then insert the group. -/
def create_group (st : StoreState) (req : CreateGroupRequest) (newId : String)
    (now : Nat) : StoreState × Except Error (StoredParts Group) :=
  if st.groups.any (fun p => p.2.resource.displayName = req.displayName) then
    (st, .error (Error.conflict ("displayName " ++ req.displayName)))
  else
    match req.members with
    | none =>
      let newGroup : StoredParts Group :=
        ⟨⟨newId, req.displayName, req.externalId, none⟩, ⟨now, now, "W/unimplemented"⟩⟩
      ({ st with groups := mapInsert st.groups newId newGroup }, .ok newGroup)
    | some ms =>
      match addMembers st newId req.displayName ms with
      | (st2, .error e) => (st2, .error e)
      | (st2, .ok ms2) =>
        let newGroup : StoredParts Group :=
          ⟨⟨newId, req.displayName, req.externalId, some ms2⟩, ⟨now, now, "W/unimplemented"⟩⟩
        ({ st2 with groups := mapInsert st2.groups newId newGroup }, .ok newGroup)

/-- The `retain` in `replace_group` / `delete_group_by_id`: drop every
reverse entry whose `value` is the given group id. -/
def removeGroupRefs (groupId : String) : List UserGroup → List UserGroup
  | [] => []
  | ug :: rest =>
    if ug.value = some groupId then removeGroupRefs groupId rest
    else ug :: removeGroupRefs groupId rest

/-- Strip the given group id from one stored user's reverse list (`None`
stays `None`, matching the `if let Some(groups)` guard). -/
def stripUserGroups (groupId : String) (sp : StoredParts User) : StoredParts User :=
  { sp with
    resource := { sp.resource with
      groups := sp.resource.groups.map (removeGroupRefs groupId) } }

/-- Strip the given group id from every user's reverse list (the
`values_mut` loop). -/
def stripAllUsers (st : StoreState) (groupId : String) : StoreState :=
  { st with users := st.users.map (fun p => (p.1, stripUserGroups groupId p.2)) }

/-- The tail of `replace_group` after member resolution: look the group
up (404 on an already-mutated state when absent) and overwrite it keeping
`created` and `version`, setting `last_modified` to `now`. -/
def replaceGroupFinish (st : StoreState) (groupId : String) (req : CreateGroupRequest)
    (resolved : Option (List GroupMember)) (now : Nat) :
    StoreState × Except Error (StoredParts Group) :=
  match mapGet st.groups groupId with
  | none => (st, .error (Error.not_found groupId))
  | some existing =>
    let updated : StoredParts Group :=
      ⟨⟨groupId, req.displayName, req.externalId, resolved⟩,
       ⟨existing.meta.created, now, existing.meta.version⟩⟩
    ({ st with groups := mapModify st.groups groupId (fun _ => updated) }, .ok updated)

/-- `replace_group`, in source order: `displayName` uniqueness check
(exact comparison, other groups only), then strip the group id from every
user's reverse list, then resolve the new members (pushing reverse
entries), and only then look the group up — a 404 or a member-resolution
failure therefore returns an error on an already-mutated state. -/
def replace_group (st : StoreState) (groupId : String) (req : CreateGroupRequest)
    (now : Nat) : StoreState × Except Error (StoredParts Group) :=
  if st.groups.any (fun p => p.2.resource.displayName = req.displayName ∧ p.2.resource.id ≠ groupId) then
    (st, .error (Error.conflict ("displayName " ++ req.displayName)))
  else
    let st1 := stripAllUsers st groupId
    match req.members with
    | none => replaceGroupFinish st1 groupId req none now
    | some ms =>
      match addMembers st1 groupId req.displayName ms with
      | (st2, .error e) => (st2, .error e)
      | (st2, .ok ms2) => replaceGroupFinish st2 groupId req (some ms2) now

/-- `delete_group_by_id`: remove the group entry; when it existed, strip
its id from every user's reverse list. -/
def delete_group_by_id (st : StoreState) (groupId : String) :
    StoreState × ProviderStoreDeleteResult :=
  match mapGet st.groups groupId with
  | some _ =>
    (stripAllUsers { st with groups := mapRemove st.groups groupId } groupId, .Deleted)
  | none => (st, .NotFound)

/-! ## The PATCH engine (`patch.rs`) -/

/-- An untyped JSON value (`serde_json::Value`); numbers are irrelevant
to the decoded shapes and carried as integers. -/
inductive Json
  | null
  | bool (b : Bool)
  | num (n : Int)
  | str (s : String)
  | arr (xs : List Json)
  | obj (kvs : List (String × Json))

/-- First field of a JSON object with the given key (a parsed
`serde_json::Map` has unique keys). -/
def jField : List (String × Json) → String → Option Json
  | [], _ => none
  | (k2, v) :: rest, k => if k2 = k then some v else jField rest k

/-- `serde_json::from_value::<Active>` in `apply_user_ops`: an object
with an `active` boolean (unknown fields ignored by serde). -/
def decodeActive : Json → Option Bool
  | .obj kvs =>
    match jField kvs "active" with
    | some (.bool b) => some b
    | _ => none
  | _ => none

/-- `serde_json::from_value::<Member>` in `apply_group_add_op`: an object
with `value` and `display` strings, both required. -/
def decodeMemberValueDisplay : Json → Option (String × String)
  | .obj kvs =>
    match jField kvs "value", jField kvs "display" with
    | some (.str v), some (.str d) => some (v, d)
    | _, _ => none
  | _ => none

/-- One element of `serde_json::from_value::<Vec<Member>>` in
`apply_group_replace_op`: an object with a `value` string. -/
def decodeMemberValue : Json → Option String
  | .obj kvs =>
    match jField kvs "value" with
    | some (.str v) => some v
    | _ => none
  | _ => none

/-- `serde_json::from_value::<Vec<Member>>` in `apply_group_replace_op`:
an array whose elements all decode, all-or-nothing. -/
def decodeMemberValues : Json → Option (List String)
  | .arr xs => decodeMemberValuesList xs
  | _ => none
where
  decodeMemberValuesList : List Json → Option (List String)
    | [] => some []
    | j :: rest =>
      match decodeMemberValue j, decodeMemberValuesList rest with
      | some v, some vs => some (v :: vs)
      | _, _ => none

/-- `serde_json::from_value::<DisplayName>` in `apply_group_replace_op`
(no-path case): an object with `id` and `displayName` strings. -/
def decodeIdDisplayName : Json → Option (String × String)
  | .obj kvs =>
    match jField kvs "id", jField kvs "displayName" with
    | some (.str i), some (.str d) => some (i, d)
    | _, _ => none
  | _ => none

/-- `patch.rs::PatchOp`. -/
inductive PatchOp
  | replace (path : Option String) (value : Json)
  | add (path : Option String) (value : Json)
  | remove (path : String)

/-- `patch.rs::PatchRequest`. -/
structure PatchRequest where
  schemas : List String
  operations : List PatchOp

/-- `patch.rs::PatchRequestError`. -/
inductive PatchRequestError
  | Invalid (reason : String)
  | Unsupported (reason : String)
deriving DecidableEq

/-- `urn.rs::PATCHOP_URN`. -/
def PATCHOP_URN : String := "urn:ietf:params:scim:api:messages:2.0:PatchOp"

/-- `PatchRequest::validate_schema`: the schema list must be exactly the
single PatchOp URN (the Debug-formatted schema list in the source's
detail string is not modelled). -/
def validate_schema (req : PatchRequest) : Except PatchRequestError Unit :=
  match req.schemas with
  | [v] => if v = PATCHOP_URN then .ok () else .error (.Invalid "invalid patch schema")
  | _ => .error (.Invalid "invalid patch schema")

/-- `IdOrdMap::insert_overwrite` on the member collection: replace the
entry with the same (case-insensitive) key, otherwise add the member.
The list model keeps key multiset semantics; iteration order (which the
real `IdOrdMap` keeps sorted by key) is not relied upon by any claim. -/
def insertOverwrite : List GroupMember → GroupMember → List GroupMember
  | [], m => [m]
  | m2 :: rest, m =>
    if memberKey m2 = memberKey m then m :: rest else m2 :: insertOverwrite rest m

/-- `IdOrdMap::remove` by key on the member collection. -/
def removeMember : List GroupMember → Option String → List GroupMember
  | [], _ => []
  | m :: rest, k => if memberKey m = k then rest else m :: removeMember rest k

/-- `patch.rs::apply_group_replace_op`.  With a path it must be
`members` (ASCII-case-insensitively); the value must decode as member
stubs with `value` fields, and the member set is rebuilt from them
(`FromIterator` upserts by key), stored as `None` when empty.  Without a
path the value must decode as `{id, displayName}`, the id must match the
group's (ASCII-case-insensitively), and the display name is replaced. -/
def apply_group_replace_op (path : Option String) (value : Json)
    (group : StoredParts Group) : Except PatchRequestError (StoredParts Group) :=
  match path with
  | some p =>
    if eqIgnoreAsciiCase p "members" then
      match decodeMemberValues value with
      | none =>
        .error (.Invalid "members being replaced in a group require a value field")
      | some vals =>
        let newMembers := vals.foldl
          (fun acc v => insertOverwrite acc ⟨some (ResourceType.display .User), some v⟩) []
        .ok { group with
          resource := { group.resource with
            members := if newMembers.isEmpty then none else some newMembers } }
    else
      .error (.Unsupported "only replacing a groups members path is supported")
  | none =>
    match decodeIdDisplayName value with
    | none =>
      .error (.Unsupported "only replacing a displayName is supported when not including a path")
    | some (changeId, changeDisplayName) =>
      if eqIgnoreAsciiCase group.resource.id changeId then
        .ok { group with
          resource := { group.resource with displayName := changeDisplayName } }
      else
        .error (.Invalid ("unexpected group id " ++ changeId))

/-- The member loop of `apply_group_add_op`: each stub must decode as
`{value, display}`; a display equal (ASCII-case-insensitively) to the
group's own displayName is rejected; otherwise the member is upserted by
key into the member collection. -/
def addMemberStubs : List Json → StoredParts Group → Except PatchRequestError (StoredParts Group)
  | [], group => .ok group
  | j :: rest, group =>
    match decodeMemberValueDisplay j with
    | none => .error (.Invalid "group add op member value expected")
    | some (v, d) =>
      if eqIgnoreAsciiCase group.resource.displayName d then
        .error (.Invalid ("group add op value display was " ++ d ++ " expected "
          ++ group.resource.displayName))
      else
        addMemberStubs rest { group with
          resource := { group.resource with
            members := some (insertOverwrite (group.resource.members.getD [])
              ⟨some (ResourceType.display .User), some v⟩) } }

/-- `patch.rs::apply_group_add_op`: the path must be present and equal
`members` (ASCII-case-insensitively), the value must be a JSON array, and
the stubs are upserted in order. -/
def apply_group_add_op (path : Option String) (value : Json)
    (group : StoredParts Group) : Except PatchRequestError (StoredParts Group) :=
  match path with
  | some p =>
    if eqIgnoreAsciiCase p "members" then
      match value with
      | .arr members => addMemberStubs members group
      | _ => .error (.Invalid "group add op value must be an array of members")
    else
      .error (.Invalid "group add op must provide members as the path")
  | none => .error (.Invalid "group add op must provide members as the path")

/-- `patch.rs::GroupRemoveOp` (the `Indvidual` spelling is the
source's). -/
inductive GroupRemoveOp
  | All
  | Indvidual (value : String)
deriving DecidableEq

/-- `patch.rs::parse_remove_path`: trim and lower-case the path; exactly
`members` clears all; otherwise the path must have the shape
`members[value eq "<VALUE>"]` with a double-quoted value of length
greater than two, which is stripped of its quotes. -/
def parse_remove_path (path : String) : Except PatchRequestError GroupRemoveOp :=
  let p := lowerList (trimList path.data)
  if p = "members".data then .ok .All
  else
    match dropLead "members[value eq ".data p with
    | none =>
      .error (.Invalid "path should be specified as members[value eq <VALUE>] with a quoted value")
    | some rest =>
      match dropTrail "]".data rest with
      | none =>
        .error (.Invalid "path should be specified as members[value eq <VALUE>] with a quoted value")
      | some v =>
        match isQuotedValue v with
        | some inner => .ok (.Indvidual ⟨inner⟩)
        | none =>
          .error (.Invalid "individual group remove op must contain a quoted value in the path")

/-- `patch.rs::apply_group_remove_op`: `members` clears the collection to
an empty (present) set; `members[value eq "<id>"]` removes the member
with that case-insensitive key, a missing member being a no-op (the
collection is materialised by `get_or_insert_default` either way). -/
def apply_group_remove_op (path : String) (group : StoredParts Group) :
    Except PatchRequestError (StoredParts Group) :=
  match parse_remove_path path with
  | .error e => .error e
  | .ok .All => .ok { group with resource := { group.resource with members := some [] } }
  | .ok (.Indvidual v) =>
    .ok { group with
      resource := { group.resource with
        members := some (removeMember (group.resource.members.getD []) (some (lowerStr v))) } }

/-- One operation of `PatchRequest::apply_user_ops`: only `replace` of
the `active` property is supported. -/
def applyUserOp (u : StoredParts User) : PatchOp → Except PatchRequestError (StoredParts User)
  | .replace _ value =>
    match decodeActive value with
    | some b => .ok { u with resource := { u.resource with active := some b } }
    | none => .error (.Unsupported "only replacing the active property is supported")
  | _ => .error (.Unsupported "only the replace op is supported for users")

/-- The operation loop of `apply_user_ops` (RFC 7644 §3.5.2: the result
of each operation becomes the target of the next). -/
def opsFoldUser : List PatchOp → StoredParts User → Except PatchRequestError (StoredParts User)
  | [], u => .ok u
  | op :: rest, u =>
    match applyUserOp u op with
    | .ok u2 => opsFoldUser rest u2
    | .error e => .error e

/-- `PatchRequest::apply_user_ops`: validate the schema once, then apply
the operations in array order to a working copy (the engine is a pure
function of the input here, matching the source's clone-then-mutate). -/
def apply_user_ops (req : PatchRequest) (stored_user : StoredParts User) :
    Except PatchRequestError (StoredParts User) :=
  match validate_schema req with
  | .error e => .error e
  | .ok _ => opsFoldUser req.operations stored_user

/-- One operation of `PatchRequest::apply_group_ops`, dispatched on the
op kind. -/
def applyGroupOp (g : StoredParts Group) : PatchOp → Except PatchRequestError (StoredParts Group)
  | .replace path value => apply_group_replace_op path value g
  | .add path value => apply_group_add_op path value g
  | .remove path => apply_group_remove_op path g

/-- The operation loop of `apply_group_ops`. -/
def opsFoldGroup : List PatchOp → StoredParts Group → Except PatchRequestError (StoredParts Group)
  | [], g => .ok g
  | op :: rest, g =>
    match applyGroupOp g op with
    | .ok g2 => opsFoldGroup rest g2
    | .error e => .error e

/-- `PatchRequest::apply_group_ops`: validate the schema once, then apply
the operations in array order to a working copy. -/
def apply_group_ops (req : PatchRequest) (stored_group : StoredParts Group) :
    Except PatchRequestError (StoredParts Group) :=
  match validate_schema req with
  | .error e => .error e
  | .ok _ => opsFoldGroup req.operations stored_group

/-! ## The filter parser (`query_params.rs`) -/

/-- `query_params.rs::FilterOp`. -/
inductive FilterOp
  | UserNameEq (value : String)
  | DisplayNameEq (value : String)
deriving DecidableEq

/-- `query_params.rs::parse_filter_param`: trim and lower-case the raw
expression, split on the literal token `" eq "`, require exactly two
parts, a `username`/`displayname` attribute and a double-quoted value of
length greater than two; anything else is an invalid-filter error. -/
def parse_filter_param (raw : String) : Except Error FilterOp :=
  let cs := lowerList (trimList raw.data)
  let parts := splitOnTok " eq ".data cs
  match parts with
  | [p0, p1] =>
    match isQuotedValue p1 with
    | some v =>
      if p0 = "username".data then .ok (.UserNameEq ⟨v⟩)
      else if p0 = "displayname".data then .ok (.DisplayNameEq ⟨v⟩)
      else .error (Error.invalid_filter ("filter " ++ String.mk cs ++ " not supported"))
    | none => .error (Error.invalid_filter ("filter " ++ String.mk cs ++ " not supported"))
  | _ => .error (Error.invalid_filter ("invalid filter " ++ String.mk cs))

/-- The specification's reading of the filter grammar, §4.1: lower-case
and trim the whole expression; split on the literal token `" eq "`;
require exactly two parts; the attribute must be exactly `username` or
`displayname`; the value must be wrapped in double quotes with length
greater than two, the quotes being stripped; the result carries the
lower-cased quote-stripped value, and every other input is rejected. -/
def filterSpecResult (raw : String) : Option FilterOp :=
  let lowered := lowerList (trimList raw.data)
  match splitOnTok " eq ".data lowered with
  | [attr, value] =>
    if value.length > 2 ∧ value.head? = some '"' ∧ value.getLast? = some '"' then
      let stripped : String := ⟨(value.drop 1).dropLast⟩
      if attr = "username".data then some (.UserNameEq stripped)
      else if attr = "displayname".data then some (.DisplayNameEq stripped)
      else none
    else none
  | _ => none

/-! ## View helpers used by the theorems -/

/-- The reverse membership list of the user stored at `userId` (empty
when the user is absent or its `groups` field is `None`). -/
def userGroupsOf (st : StoreState) (userId : String) : List UserGroup :=
  match mapGet st.users userId with
  | some sp => sp.resource.groups.getD []
  | none => []

/-- The forward member list of the group stored at `groupId` (empty when
the group is absent or its `members` field is `None`). -/
def groupMembersOf (st : StoreState) (groupId : String) : List GroupMember :=
  match mapGet st.groups groupId with
  | some sp => sp.resource.members.getD []
  | none => []

/-- The user stored at `userId` references `groupId` through its reverse
membership list. -/
def userRefs (st : StoreState) (userId groupId : String) : Prop :=
  ∃ ug ∈ userGroupsOf st userId, ug.value = some groupId

/-- The member list of a stored group resource, `None` read as empty. -/
def membersOf (g : StoredParts Group) : List GroupMember :=
  g.resource.members.getD []

/-- Number of membership entries whose (case-insensitive) key is `k`. -/
def countKey (ms : List GroupMember) (k : Option String) : Nat :=
  (ms.filter (fun m => memberKey m = k)).length

/-- The member stub JSON sent by a PATCH add operation. -/
def memberStub (v d : String) : Json :=
  .obj [("value", .str v), ("display", .str d)]

/-- A well-formed PATCH request consisting of a single add-members
operation carrying the given stubs. -/
def addMembersReq (stubs : List Json) : PatchRequest :=
  ⟨[PATCHOP_URN], [.add (some "members") (.arr stubs)]⟩

/-! ## Concrete fixtures for witnesses and counterexamples -/

/-- The meta block every fixture starts from. -/
def metaZero : StoredMeta := ⟨0, 0, "W/unimplemented"⟩

/-- A stored user without group memberships. -/
def userNoGroups (uid name : String) : StoredParts User :=
  ⟨⟨uid, name, none, none, none⟩, metaZero⟩

/-- A stored user with the given reverse membership list. -/
def userWithGroups (uid name : String) (gs : List UserGroup) : StoredParts User :=
  ⟨⟨uid, name, none, none, some gs⟩, metaZero⟩

/-- A stored group with the given member collection. -/
def groupStored (gid dn : String) (ms : Option (List GroupMember)) : StoredParts Group :=
  ⟨⟨gid, dn, none, ms⟩, metaZero⟩

/-- Fixture: one user `u1` and one empty group `g1`. -/
def fixStore : StoreState :=
  ⟨[("u1", userNoGroups "u1" "jim")], [("g1", groupStored "g1" "Sales" none)]⟩

/-- Fixture: the request putting `u1` into a group named `Sales`. -/
def fixReq : CreateGroupRequest := ⟨"Sales", none, some [⟨none, some "u1"⟩]⟩

/-- Fixture: the state `replace_group fixStore "g1" fixReq 7` produces. -/
def fixStoreAfter : StoreState :=
  ⟨[("u1", userWithGroups "u1" "jim" [⟨some UserGroupType.Direct, some "g1", some "Sales"⟩])],
   [("g1", ⟨⟨"g1", "Sales", none, some [⟨some "User", some "u1"⟩]⟩, ⟨0, 7, "W/unimplemented"⟩⟩)]⟩

/-- Fixture: the group `replace_group fixStore "g1" fixReq 7` returns. -/
def fixGroupAfter : StoredParts Group :=
  ⟨⟨"g1", "Sales", none, some [⟨some "User", some "u1"⟩]⟩, ⟨0, 7, "W/unimplemented"⟩⟩

/-- Fixture: `u1` is a member of `g1` with the reverse entry in place. -/
def fixLinkedStore : StoreState :=
  ⟨[("u1", userWithGroups "u1" "jim" [⟨some UserGroupType.Direct, some "g1", some "Sales"⟩])],
   [("g1", groupStored "g1" "Sales" (some [⟨some "User", some "u1"⟩]))]⟩

/-! ## Helper lemmas -/

theorem mapGet_mapModify_self {α : Type} (m : List (String × α)) (k : String) (f : α → α) :
    mapGet (mapModify m k f) k = (mapGet m k).map f := by
  induction m with
  | nil => simp [mapGet, mapModify]
  | cons p rest ih =>
    obtain ⟨k2, v2⟩ := p
    by_cases h : k2 = k
    · subst h
      simp [mapGet, mapModify]
    · simp [mapGet, mapModify, h, ih]

theorem mapGet_mapModify_ne {α : Type} (m : List (String × α)) (k k2 : String) (f : α → α)
    (h : k2 ≠ k) : mapGet (mapModify m k f) k2 = mapGet m k2 := by
  induction m with
  | nil => simp [mapGet, mapModify]
  | cons p rest ih =>
    obtain ⟨k3, v3⟩ := p
    by_cases h3 : k3 = k
    · subst h3
      have hne : k3 ≠ k2 := fun he => h he.symm
      simp [mapGet, mapModify, hne]
    · by_cases h32 : k3 = k2
      · subst h32
        simp [mapGet, mapModify, h3]
      · simp [mapGet, mapModify, h3, h32, ih]

theorem mapGet_mapPairs {α : Type} (m : List (String × α)) (k : String) (f : α → α) :
    mapGet (m.map (fun p => (p.1, f p.2))) k = (mapGet m k).map f := by
  induction m with
  | nil => simp [mapGet]
  | cons p rest ih =>
    obtain ⟨k2, v2⟩ := p
    by_cases h : k2 = k
    · subst h
      simp [mapGet]
    · simp [mapGet, h, ih]

theorem userGroupsOf_congr {st2 st1 : StoreState} (h : st2.users = st1.users) (uid : String) :
    userGroupsOf st2 uid = userGroupsOf st1 uid := by
  simp [userGroupsOf, h]

theorem userRefs_congr {st2 st1 : StoreState} (h : st2.users = st1.users) (uid gid : String) :
    userRefs st2 uid gid ↔ userRefs st1 uid gid := by
  simp [userRefs, userGroupsOf_congr h]

theorem mem_removeGroupRefs {gid : String} {ug : UserGroup} :
    ∀ {gs : List UserGroup}, ug ∈ removeGroupRefs gid gs → ug ∈ gs ∧ ug.value ≠ some gid := by
  intro gs
  induction gs with
  | nil => intro h; simp [removeGroupRefs] at h
  | cons ug2 rest ih =>
    intro hmem
    simp only [removeGroupRefs] at hmem
    by_cases h : ug2.value = some gid
    · rw [if_pos h] at hmem
      exact ⟨List.mem_cons_of_mem _ (ih hmem).1, (ih hmem).2⟩
    · rw [if_neg h] at hmem
      rcases List.mem_cons.mp hmem with heq | hmem2
      · subst heq
        exact ⟨List.mem_cons_self _ _, h⟩
      · exact ⟨List.mem_cons_of_mem _ (ih hmem2).1, (ih hmem2).2⟩

theorem stripAllUsers_groups (st : StoreState) (gid : String) :
    (stripAllUsers st gid).groups = st.groups := rfl

theorem userGroupsOf_stripAllUsers (st : StoreState) (gid uid : String) :
    userGroupsOf (stripAllUsers st gid) uid = removeGroupRefs gid (userGroupsOf st uid) := by
  simp only [userGroupsOf, stripAllUsers, mapGet_mapPairs]
  cases mapGet st.users uid with
  | none => simp [removeGroupRefs]
  | some sp =>
    cases h : sp.resource.groups with
    | none => simp [stripUserGroups, h, removeGroupRefs]
    | some gs => simp [stripUserGroups, h]

theorem not_userRefs_stripAllUsers (st : StoreState) (gid uid : String) :
    ¬ userRefs (stripAllUsers st gid) uid gid := by
  rintro ⟨ug, hmem, hval⟩
  rw [userGroupsOf_stripAllUsers] at hmem
  exact (mem_removeGroupRefs hmem).2 hval

theorem pushUserGroup_groups (st : StoreState) (v gid dn : String) :
    (pushUserGroup st v gid dn).groups = st.groups := rfl

theorem userGroupsOf_pushUserGroup_ne (st : StoreState) (v gid dn uid : String)
    (h : uid ≠ v) : userGroupsOf (pushUserGroup st v gid dn) uid = userGroupsOf st uid := by
  simp [userGroupsOf, pushUserGroup, mapGet_mapModify_ne _ _ _ _ h]

theorem userGroupsOf_pushUserGroup_self {st : StoreState} {v : String} (gid dn : String)
    {sp : StoredParts User} (h : mapGet st.users v = some sp) :
    userGroupsOf (pushUserGroup st v gid dn) v = userGroupsOf st v ++ [directEntry gid dn] := by
  simp [userGroupsOf, pushUserGroup, mapGet_mapModify_self, h]

theorem mapGet_pushUserGroup_isSome (st : StoreState) (v gid dn uid : String) :
    (mapGet (pushUserGroup st v gid dn).users uid).isSome = (mapGet st.users uid).isSome := by
  by_cases h : uid = v
  · subst h
    simp [pushUserGroup, mapGet_mapModify_self]
  · simp [pushUserGroup, mapGet_mapModify_ne _ _ _ _ h]

theorem userRefs_pushUserGroup_iff (st : StoreState) (v : String) (gid dn : String)
    (hsome : (mapGet st.users v).isSome = true) (uid : String) :
    userRefs (pushUserGroup st v gid dn) uid gid ↔ (userRefs st uid gid ∨ uid = v) := by
  obtain ⟨sp, hsp⟩ := Option.isSome_iff_exists.mp hsome
  by_cases h : uid = v
  · subst h
    constructor
    · intro _
      exact Or.inr rfl
    · intro _
      refine ⟨directEntry gid dn, ?_, rfl⟩
      rw [userGroupsOf_pushUserGroup_self gid dn hsp]
      simp
  · rw [userRefs, userGroupsOf_pushUserGroup_ne st v gid dn uid h]
    simp [userRefs, h]

theorem get_group_member_ok {st : StoreState} {m res : GroupMember}
    (h : get_group_member st m = .ok res) :
    ∃ v, m.value = some v ∧ res = ⟨some "User", some v⟩ ∧
      (mapGet st.users v).isSome = true := by
  unfold get_group_member at h
  split at h
  · exact absurd h (by simp)
  rename_i v hv
  split at h
  · rename_i rt hrt
    split at h
    · exact absurd h (by simp)
    · rename_i hfs
      split at h
      · exact absurd h (by simp)
      · rename_i sp hu
        simp only [Except.ok.injEq] at h
        exact ⟨v, hv, h.symm, by simp [hu]⟩
    · exact absurd h (by simp)
  · rename_i hrt
    split at h
    · exact absurd h (by simp)
    · rename_i sp hu hg
      simp only [Except.ok.injEq] at h
      exact ⟨v, hv, h.symm, by simp [hu]⟩
    · exact absurd h (by simp)
    · exact absurd h (by simp)

theorem get_group_member_error_status {st : StoreState} {m : GroupMember} {e : Error}
    (h : get_group_member st m = .error e) : e.status ≠ 409 := by
  unfold get_group_member at h
  split at h
  · simp only [Except.error.injEq] at h
    subst h
    simp [Error.invalid_syntax]
  rename_i v hv
  split at h
  · rename_i rt hrt
    split at h
    · rename_i e2 hfs
      simp only [Except.error.injEq] at h
      subst h
      simp [Error.invalid_syntax]
    · split at h
      · simp only [Except.error.injEq] at h
        subst h
        simp [Error.not_found]
      · exact absurd h (by simp)
    · simp only [Except.error.injEq] at h
      subst h
      simp [Error.internal_error]
  · rename_i hrt
    split at h
    · simp only [Except.error.injEq] at h
      subst h
      simp [Error.not_found]
    · exact absurd h (by simp)
    · simp only [Except.error.injEq] at h
      subst h
      simp [Error.internal_error]
    · simp only [Except.error.injEq] at h
      subst h
      simp [Error.internal_error]

theorem addMembers_error_status {gid dn : String} :
    ∀ {ms : List GroupMember} {st st2 : StoreState} {e : Error},
      addMembers st gid dn ms = (st2, .error e) → e.status ≠ 409 := by
  intro ms
  induction ms with
  | nil => intro st st2 e h; simp [addMembers] at h
  | cons m rest ih =>
    intro st st2 e h
    rw [addMembers] at h
    cases hg : get_group_member st m with
    | error e2 =>
      rw [hg] at h
      simp only [Prod.mk.injEq, Except.error.injEq] at h
      rw [← h.2]
      exact get_group_member_error_status hg
    | ok resolved =>
      rw [hg] at h
      simp only at h
      cases hrec : addMembers (pushUserGroup st ((resolved.value).getD "") gid dn) gid dn rest with
      | mk st3 r =>
        rw [hrec] at h
        cases r with
        | ok ms2 => simp at h
        | error e2 =>
          simp only [Prod.mk.injEq, Except.error.injEq] at h
          rw [← h.2]
          exact ih hrec

theorem addMembers_groups (gid dn : String) :
    ∀ (ms : List GroupMember) (st : StoreState),
      ((addMembers st gid dn ms).1).groups = st.groups := by
  intro ms
  induction ms with
  | nil => intro st; rfl
  | cons m rest ih =>
    intro st
    rw [addMembers]
    cases hg : get_group_member st m with
    | error e => rfl
    | ok resolved =>
      simp only
      cases hrec : addMembers (pushUserGroup st ((resolved.value).getD "") gid dn) gid dn rest with
      | mk st3 r =>
        have h3 : st3.groups = st.groups := by
          have := ih (pushUserGroup st ((resolved.value).getD "") gid dn)
          rw [hrec] at this
          exact this
        cases r <;> simpa using h3

theorem addMembers_ok_values {gid dn : String} :
    ∀ {ms : List GroupMember} {st st2 : StoreState} {ms2 : List GroupMember},
      addMembers st gid dn ms = (st2, .ok ms2) →
      ms2.map (fun m => m.value) = ms.map (fun m => m.value) := by
  intro ms
  induction ms with
  | nil =>
    intro st st2 ms2 h
    simp only [addMembers, Prod.mk.injEq, Except.ok.injEq] at h
    simp [← h.2]
  | cons m rest ih =>
    intro st st2 ms2 h
    rw [addMembers] at h
    cases hg : get_group_member st m with
    | error e => rw [hg] at h; simp at h
    | ok resolved =>
      rw [hg] at h
      simp only at h
      cases hrec : addMembers (pushUserGroup st ((resolved.value).getD "") gid dn) gid dn rest with
      | mk st3 r =>
        rw [hrec] at h
        cases r with
        | error e => simp at h
        | ok ms3 =>
          simp only [Prod.mk.injEq, Except.ok.injEq] at h
          obtain ⟨v, hval, hres, _⟩ := get_group_member_ok hg
          subst hres
          rw [← h.2]
          simp [ih hrec, hval]

theorem addMembers_ok_refs {gid dn : String} :
    ∀ {ms : List GroupMember} {st st2 : StoreState} {ms2 : List GroupMember},
      addMembers st gid dn ms = (st2, .ok ms2) → ∀ uid,
      (userRefs st2 uid gid ↔ (userRefs st uid gid ∨ ∃ m ∈ ms, m.value = some uid)) := by
  intro ms
  induction ms with
  | nil =>
    intro st st2 ms2 h uid
    simp only [addMembers, Prod.mk.injEq, Except.ok.injEq] at h
    rw [userRefs_congr (congrArg StoreState.users h.1.symm)]
    simp
  | cons m rest ih =>
    intro st st2 ms2 h uid
    rw [addMembers] at h
    cases hg : get_group_member st m with
    | error e => rw [hg] at h; simp at h
    | ok resolved =>
      rw [hg] at h
      simp only at h
      obtain ⟨v, hval, hres, hsome⟩ := get_group_member_ok hg
      cases hrec : addMembers (pushUserGroup st ((resolved.value).getD "") gid dn) gid dn rest with
      | mk st3 r =>
        rw [hrec] at h
        cases r with
        | error e => simp at h
        | ok ms3 =>
          simp only [Prod.mk.injEq, Except.ok.injEq] at h
          have hst : st3 = st2 := h.1
          subst hst
          have hv2 : (resolved.value).getD "" = v := by rw [hres]; rfl
          rw [hv2] at hrec
          have hpush := userRefs_pushUserGroup_iff st v gid dn hsome uid
          have hih := ih hrec uid
          rw [hih, hpush]
          constructor
          · rintro ((href | rfl) | ⟨m2, hm2, hm2v⟩)
            · exact Or.inl href
            · exact Or.inr ⟨m, List.mem_cons_self _ _, hval⟩
            · exact Or.inr ⟨m2, List.mem_cons_of_mem _ hm2, hm2v⟩
          · rintro (href | ⟨m2, hm2, hm2v⟩)
            · exact Or.inl (Or.inl href)
            · rcases List.mem_cons.mp hm2 with heq | hm2r
              · subst heq
                rw [hval] at hm2v
                exact Or.inl (Or.inr (Option.some_injective _ hm2v).symm)
              · exact Or.inr ⟨m2, hm2r, hm2v⟩

theorem replaceGroupFinish_ok {st st2 : StoreState} {gid : String} {req : CreateGroupRequest}
    {resolved : Option (List GroupMember)} {now : Nat} {res : StoredParts Group}
    (h : replaceGroupFinish st gid req resolved now = (st2, .ok res)) :
    ∃ existing, mapGet st.groups gid = some existing ∧
      res = ⟨⟨gid, req.displayName, req.externalId, resolved⟩,
             ⟨existing.meta.created, now, existing.meta.version⟩⟩ ∧
      st2.users = st.users ∧ mapGet st2.groups gid = some res := by
  unfold replaceGroupFinish at h
  cases hg : mapGet st.groups gid with
  | none => rw [hg] at h; simp at h
  | some existing =>
    rw [hg] at h
    simp only [Prod.mk.injEq, Except.ok.injEq] at h
    refine ⟨existing, rfl, h.2.symm, ?_, ?_⟩
    · rw [← h.1]
    · rw [← h.1, ← h.2]
      simp [mapGet_mapModify_self, hg]

theorem removeMember_of_absent {k : Option String} :
    ∀ {ms : List GroupMember}, (∀ m ∈ ms, memberKey m ≠ k) → removeMember ms k = ms := by
  intro ms
  induction ms with
  | nil => intro _; rfl
  | cons m rest ih =>
    intro habs
    rw [removeMember, if_neg (habs m (List.mem_cons_self _ _)),
      ih (fun m2 hm2 => habs m2 (List.mem_cons_of_mem _ hm2))]

theorem validate_schema_of_ne {req : PatchRequest} (h : req.schemas ≠ [PATCHOP_URN]) :
    validate_schema req = .error (.Invalid "invalid patch schema") := by
  unfold validate_schema
  cases hs : req.schemas with
  | nil => rfl
  | cons v rest =>
    cases rest with
    | nil =>
      have hv : v ≠ PATCHOP_URN := fun hv => h (by rw [hs, hv])
      simp [hv]
    | cons w rest2 => rfl

theorem validate_schema_of_eq {req : PatchRequest} (h : req.schemas = [PATCHOP_URN]) :
    validate_schema req = .ok () := by
  unfold validate_schema
  rw [h]
  simp

theorem opsFoldGroup_append_error {op : PatchOp} {e : PatchRequestError} :
    ∀ {ops1 : List PatchOp} {g g2 : StoredParts Group} (ops2 : List PatchOp),
      opsFoldGroup ops1 g = .ok g2 → applyGroupOp g2 op = .error e →
      opsFoldGroup (ops1 ++ op :: ops2) g = .error e := by
  intro ops1
  induction ops1 with
  | nil =>
    intro g g2 ops2 h1 h2
    simp only [opsFoldGroup, Except.ok.injEq] at h1
    subst h1
    simp [opsFoldGroup, h2]
  | cons op1 rest ih =>
    intro g g2 ops2 h1 h2
    rw [opsFoldGroup] at h1
    cases hap : applyGroupOp g op1 with
    | error e2 => rw [hap] at h1; simp at h1
    | ok g3 =>
      rw [hap] at h1
      simp only at h1
      rw [List.cons_append, opsFoldGroup, hap]
      exact ih ops2 h1 h2

theorem opsFoldUser_append_error {op : PatchOp} {e : PatchRequestError} :
    ∀ {ops1 : List PatchOp} {u u2 : StoredParts User} (ops2 : List PatchOp),
      opsFoldUser ops1 u = .ok u2 → applyUserOp u2 op = .error e →
      opsFoldUser (ops1 ++ op :: ops2) u = .error e := by
  intro ops1
  induction ops1 with
  | nil =>
    intro u u2 ops2 h1 h2
    simp only [opsFoldUser, Except.ok.injEq] at h1
    subst h1
    simp [opsFoldUser, h2]
  | cons op1 rest ih =>
    intro u u2 ops2 h1 h2
    rw [opsFoldUser] at h1
    cases hap : applyUserOp u op1 with
    | error e2 => rw [hap] at h1; simp at h1
    | ok u3 =>
      rw [hap] at h1
      simp only at h1
      rw [List.cons_append, opsFoldUser, hap]
      exact ih ops2 h1 h2

theorem countKey_cons (x : GroupMember) (l : List GroupMember) (k : Option String) :
    countKey (x :: l) k = (if memberKey x = k then 1 else 0) + countKey l k := by
  by_cases h : memberKey x = k
  · simp [countKey, List.filter_cons, h, Nat.add_comm]
  · simp [countKey, List.filter_cons, h]

theorem countKey_insertOverwrite_le_one (ms : List GroupMember) (m : GroupMember)
    (h : countKey ms (memberKey m) ≤ 1) :
    countKey (insertOverwrite ms m) (memberKey m) = 1 := by
  induction ms with
  | nil => simp [insertOverwrite, countKey, List.filter_cons]
  | cons m2 rest ih =>
    rw [countKey_cons] at h
    by_cases h2 : memberKey m2 = memberKey m
    · rw [insertOverwrite, if_pos h2, countKey_cons, if_pos rfl]
      rw [if_pos h2] at h
      have hz : countKey rest (memberKey m) = 0 := by omega
      omega
    · rw [insertOverwrite, if_neg h2, countKey_cons, if_neg h2]
      rw [if_neg h2] at h
      have := ih (by omega)
      omega

theorem exists_value_iff_of_map_eq {l1 l2 : List GroupMember}
    (h : l1.map (fun m => m.value) = l2.map (fun m => m.value)) (x : Option String) :
    (∃ m ∈ l1, m.value = x) ↔ (∃ m ∈ l2, m.value = x) := by
  constructor
  · rintro ⟨m, hm, hv⟩
    have : x ∈ l2.map (fun m => m.value) := by
      rw [← h]
      exact List.mem_map.mpr ⟨m, hm, hv⟩
    obtain ⟨m2, hm2, hv2⟩ := List.mem_map.mp this
    exact ⟨m2, hm2, hv2⟩
  · rintro ⟨m, hm, hv⟩
    have : x ∈ l1.map (fun m => m.value) := by
      rw [h]
      exact List.mem_map.mpr ⟨m, hm, hv⟩
    obtain ⟨m2, hm2, hv2⟩ := List.mem_map.mp this
    exact ⟨m2, hm2, hv2⟩

/-! ## Claim theorems -/

/-- C10: `replace_group` first strips the group id from every user's
reverse membership list and inserts reverse entries for each member
resolved so far, and only then looks the group up; so a nonexistent group
id (first conjunct: the user's reverse entry to `g1` is gone although the
call 404s) or a member list whose later entry fails to resolve (second
and third conjuncts: `u1` has gained a reverse entry although the call
404s on `missing`) leaves the error-path state mutated. -/
theorem c10_replace_group_error_path_mutates :
    (replace_group
        ⟨[("u1", userWithGroups "u1" "jim" [⟨some UserGroupType.Direct, some "g1", some "disp"⟩])], []⟩
        "g1" ⟨"NewName", none, none⟩ 5
      = (⟨[("u1", userWithGroups "u1" "jim" [])], []⟩, .error (Error.not_found "g1")))
    ∧ (replace_group fixStore "g1" ⟨"Sales", none, some [⟨none, some "u1"⟩, ⟨none, some "missing"⟩]⟩ 5).2
      = .error (Error.not_found "missing")
    ∧ userGroupsOf
        (replace_group fixStore "g1" ⟨"Sales", none, some [⟨none, some "u1"⟩, ⟨none, some "missing"⟩]⟩ 5).1
        "u1"
      = [⟨some UserGroupType.Direct, some "g1", some "Sales"⟩] := by
  refine ⟨by decide, by decide, by decide⟩

/-- C6 counterexample: deleting a user does not cascade: with `u1` a
member of `g1`, `delete_user_by_id` reports `Deleted` yet `g1`'s forward
member list still references `u1`. -/
theorem c6_counterexample :
    (delete_user_by_id fixLinkedStore "u1").2 = .Deleted
    ∧ groupMembersOf (delete_user_by_id fixLinkedStore "u1").1 "g1"
        = [⟨some "User", some "u1"⟩] := by
  refine ⟨by decide, by decide⟩

/-- C6 (amended): `delete_user_by_id` removes the user entry (reporting
`Deleted` exactly when the user existed) and leaves every group's forward
member list unchanged — the cascade the claim describes does not exist;
stale forward references remain. -/
theorem c6_delete_user_leaves_groups (st : StoreState) (uid : String) :
    (∀ gid, groupMembersOf (delete_user_by_id st uid).1 gid = groupMembersOf st gid)
    ∧ ((delete_user_by_id st uid).2 = .Deleted ↔ (mapGet st.users uid).isSome = true) := by
  unfold delete_user_by_id
  cases h : mapGet st.users uid with
  | some sp =>
    constructor
    · intro gid
      rfl
    · simp
  | none =>
    constructor
    · intro gid
      rfl
    · simp

/-- C4 counterexample: the uniqueness checks compare names exactly, not
case-insensitively: `JIM` is a case-combination of the existing `jim`
(first conjunct) yet `create_user` succeeds instead of returning
Conflict; likewise `SALES` versus the existing group `Sales`. -/
theorem c4_counterexample :
    lowerStr "JIM" = lowerStr "jim"
    ∧ (create_user ⟨[("u1", userNoGroups "u1" "jim")], []⟩ ⟨"JIM", none, none⟩ "u2" 1).2
        = .ok ⟨⟨"u2", "JIM", none, none, none⟩, ⟨1, 1, "W/unimplemented"⟩⟩
    ∧ lowerStr "SALES" = lowerStr "Sales"
    ∧ (create_group ⟨[], [("g1", groupStored "g1" "Sales" none)]⟩ ⟨"SALES", none, none⟩ "g2" 1).2
        = .ok ⟨⟨"g2", "SALES", none, none⟩, ⟨1, 1, "W/unimplemented"⟩⟩ := by
  refine ⟨by decide, by decide, by decide, by decide⟩

/-- C4 (amended): `create_user` returns Conflict (HTTP 409, scimType
uniqueness) with the store unchanged exactly when some existing user's
`userName` equals the request's `userName` as an exact, case-sensitive
string; likewise `create_group` for an exact `displayName` match. -/
theorem c4_uniqueness_exact_match (st : StoreState) (ureq : CreateUserRequest)
    (greq : CreateGroupRequest) (newId : String) (now : Nat) :
    (create_user st ureq newId now = (st, .error (Error.conflict ureq.name))
      ↔ (st.users.any (fun p => p.2.resource.name = ureq.name)) = true)
    ∧ (create_group st greq newId now
        = (st, .error (Error.conflict ("displayName " ++ greq.displayName)))
      ↔ (st.groups.any (fun p => p.2.resource.displayName = greq.displayName)) = true) := by
  constructor
  · by_cases hb : (st.users.any (fun p => p.2.resource.name = ureq.name)) = true
    · simp [create_user, hb]
    · simp [create_user, hb]
  · by_cases hb : (st.groups.any (fun p => p.2.resource.displayName = greq.displayName)) = true
    · simp [create_group, hb]
    · rw [create_group.eq_def, if_neg hb]
      refine iff_of_false ?_ (by simp [hb])
      cases hm : greq.members with
      | none => simp
      | some ms =>
        cases hadd : addMembers st newId greq.displayName ms with
        | mk st2 r =>
          dsimp only
          rw [hadd]
          cases r with
          | ok ms2 => simp
          | error e =>
            intro hcontra
            simp only [Prod.mk.injEq, Except.error.injEq] at hcontra
            exact addMembers_error_status hadd (by rw [hcontra.2]; rfl)

/-- C8: a PATCH remove with an individual `members[value eq "<id>"]` path
whose id matches no current member succeeds and leaves the member list
unchanged (the only change is that an absent member collection is
materialised as an empty one by `get_or_insert_default`). -/
theorem c8_remove_absent_member_is_noop (path : String) (g : StoredParts Group) (v : String)
    (hp : parse_remove_path path = .ok (.Indvidual v))
    (habs : ∀ m ∈ membersOf g, memberKey m ≠ some (lowerStr v)) :
    apply_group_remove_op path g
      = .ok { g with resource := { g.resource with members := some (membersOf g) } } := by
  have habs2 : ∀ m ∈ g.resource.members.getD [], memberKey m ≠ some (lowerStr v) := habs
  unfold apply_group_remove_op
  rw [hp]
  simp [removeMember_of_absent habs2, membersOf]

/-- C8 witness: removing `u9` from a group whose only member is `u7`
succeeds and leaves the membership unchanged. -/
theorem c8_remove_absent_member_is_noop_witness :
    apply_group_remove_op "members[value eq \"u9\"]"
        (groupStored "g1" "Sales" (some [⟨some "User", some "u7"⟩]))
      = .ok { groupStored "g1" "Sales" (some [⟨some "User", some "u7"⟩]) with
          resource := { (groupStored "g1" "Sales" (some [⟨some "User", some "u7"⟩])).resource with
            members := some (membersOf (groupStored "g1" "Sales" (some [⟨some "User", some "u7"⟩]))) } } :=
  c8_remove_absent_member_is_noop "members[value eq \"u9\"]"
    (groupStored "g1" "Sales" (some [⟨some "User", some "u7"⟩])) "u9"
    (by decide) (by decide)

/-- C2: PATCH is all-or-nothing.  The engine is a pure function of the
input resource (the source clones before mutating, so the stored resource
is untouched by construction); on top of that, a schema list that is not
exactly the single PatchOp URN makes both engines fail before any
operation is applied, and a failure of any operation in the sequence
(after the earlier operations succeeded on the working copy) makes the
whole request fail. -/
theorem c2_patch_atomicity (req : PatchRequest) (u : StoredParts User) (g : StoredParts Group) :
    (req.schemas ≠ [PATCHOP_URN] →
        apply_user_ops req u = .error (.Invalid "invalid patch schema")
        ∧ apply_group_ops req g = .error (.Invalid "invalid patch schema"))
    ∧ (∀ (ops1 : List PatchOp) (op : PatchOp) (ops2 : List PatchOp)
          (g2 : StoredParts Group) (e : PatchRequestError),
        req.operations = ops1 ++ op :: ops2 →
        opsFoldGroup ops1 g = .ok g2 → applyGroupOp g2 op = .error e →
        ∃ e2, apply_group_ops req g = .error e2)
    ∧ (∀ (ops1 : List PatchOp) (op : PatchOp) (ops2 : List PatchOp)
          (u2 : StoredParts User) (e : PatchRequestError),
        req.operations = ops1 ++ op :: ops2 →
        opsFoldUser ops1 u = .ok u2 → applyUserOp u2 op = .error e →
        ∃ e2, apply_user_ops req u = .error e2) := by
  refine ⟨?_, ?_, ?_⟩
  · intro hs
    constructor
    · rw [apply_user_ops.eq_def, validate_schema_of_ne hs]
    · rw [apply_group_ops.eq_def, validate_schema_of_ne hs]
  · intro ops1 op ops2 g2 e hops h1 h2
    by_cases hs : req.schemas = [PATCHOP_URN]
    · refine ⟨e, ?_⟩
      rw [apply_group_ops.eq_def, validate_schema_of_eq hs]
      rw [hops]
      exact opsFoldGroup_append_error ops2 h1 h2
    · refine ⟨.Invalid "invalid patch schema", ?_⟩
      rw [apply_group_ops.eq_def, validate_schema_of_ne hs]
  · intro ops1 op ops2 u2 e hops h1 h2
    by_cases hs : req.schemas = [PATCHOP_URN]
    · refine ⟨e, ?_⟩
      rw [apply_user_ops.eq_def, validate_schema_of_eq hs]
      rw [hops]
      exact opsFoldUser_append_error ops2 h1 h2
    · refine ⟨.Invalid "invalid patch schema", ?_⟩
      rw [apply_user_ops.eq_def, validate_schema_of_ne hs]

/-- C2 witness: a request with a wrong schema list fails on both engines;
a valid-schema request whose single operation fails (a malformed remove
path for groups, an add operation for users) fails as a whole. -/
theorem c2_patch_atomicity_witness :
    (apply_user_ops ⟨["bogus"], []⟩ (userNoGroups "u1" "jim")
        = .error (.Invalid "invalid patch schema")
      ∧ apply_group_ops ⟨["bogus"], []⟩ (groupStored "g1" "Sales" none)
        = .error (.Invalid "invalid patch schema"))
    ∧ (∃ e2, apply_group_ops ⟨[PATCHOP_URN], [.remove "bogus"]⟩ (groupStored "g1" "Sales" none)
        = .error e2)
    ∧ (∃ e2, apply_user_ops ⟨[PATCHOP_URN], [.add none .null]⟩ (userNoGroups "u1" "jim")
        = .error e2) :=
  ⟨(c2_patch_atomicity ⟨["bogus"], []⟩ (userNoGroups "u1" "jim")
      (groupStored "g1" "Sales" none)).1 (by decide),
   (c2_patch_atomicity ⟨[PATCHOP_URN], [.remove "bogus"]⟩ (userNoGroups "u1" "jim")
      (groupStored "g1" "Sales" none)).2.1 [] (.remove "bogus") []
      (groupStored "g1" "Sales" none)
      (.Invalid "path should be specified as members[value eq <VALUE>] with a quoted value")
      rfl rfl (by decide),
   (c2_patch_atomicity ⟨[PATCHOP_URN], [.add none .null]⟩ (userNoGroups "u1" "jim")
      (groupStored "g1" "Sales" none)).2.2 [] (.add none .null) []
      (userNoGroups "u1" "jim")
      (.Unsupported "only the replace op is supported for users")
      rfl rfl (by decide)⟩

/-- C3: operations are applied strictly in array order, the result of
operation `i` feeding operation `i+1` (first two conjuncts: the fold
steps through `applyGroupOp` and propagates its errors); in particular an
add-member operation followed by a remove-all operation in one request
leaves no members (third conjunct, for any member stub whose display does
not collide with the group's own displayName — the add operation's
defensive check rejects that collision, see the claim's amendment
sources in §4.3 of the spec). -/
theorem c3_patch_ordering :
    (∀ (g g2 : StoredParts Group) (op : PatchOp) (ops : List PatchOp),
        applyGroupOp g op = .ok g2 → opsFoldGroup (op :: ops) g = opsFoldGroup ops g2)
    ∧ (∀ (g : StoredParts Group) (op : PatchOp) (ops : List PatchOp) (e : PatchRequestError),
        applyGroupOp g op = .error e → opsFoldGroup (op :: ops) g = .error e)
    ∧ (∀ (g : StoredParts Group) (v d : String),
        eqIgnoreAsciiCase g.resource.displayName d = false →
        apply_group_ops ⟨[PATCHOP_URN],
            [.add (some "members") (.arr [memberStub v d]), .remove "members"]⟩ g
          = .ok { g with resource := { g.resource with members := some [] } }) := by
  refine ⟨?_, ?_, ?_⟩
  · intro g g2 op ops h
    rw [opsFoldGroup, h]
  · intro g op ops e h
    rw [opsFoldGroup, h]
  · intro g v d hd
    have hmempath : eqIgnoreAsciiCase "members" "members" = true := by decide
    have hremove : parse_remove_path "members" = .ok .All := by decide
    rw [apply_group_ops.eq_def, validate_schema_of_eq rfl]
    simp [opsFoldGroup, applyGroupOp, apply_group_add_op, hmempath, addMemberStubs,
      memberStub, decodeMemberValueDisplay, jField, hd, apply_group_remove_op, hremove]

/-- C3 witness: the fold steps on a successful remove-all, propagates the
error of a malformed remove, and the add-then-remove-all request on a
concrete group ends with no members. -/
theorem c3_patch_ordering_witness :
    (opsFoldGroup [.remove "members"] (groupStored "g1" "Sales" none)
      = opsFoldGroup [] { groupStored "g1" "Sales" none with resource :=
          { (groupStored "g1" "Sales" none).resource with members := some [] } })
    ∧ (opsFoldGroup [.remove "bogus"] (groupStored "g1" "Sales" none)
      = .error (.Invalid "path should be specified as members[value eq <VALUE>] with a quoted value"))
    ∧ (apply_group_ops ⟨[PATCHOP_URN],
          [.add (some "members") (.arr [memberStub "u1" "jim"]), .remove "members"]⟩
          (groupStored "g1" "Sales" none)
        = .ok { groupStored "g1" "Sales" none with resource :=
            { (groupStored "g1" "Sales" none).resource with members := some [] } }) :=
  ⟨c3_patch_ordering.1 (groupStored "g1" "Sales" none) _ (.remove "members") [] (by decide),
   c3_patch_ordering.2.1 (groupStored "g1" "Sales" none) (.remove "bogus") []
     (.Invalid "path should be specified as members[value eq <VALUE>] with a quoted value")
     (by decide),
   c3_patch_ordering.2.2 (groupStored "g1" "Sales" none) "u1" "jim" (by decide)⟩

/-- C5: the PATCH add operation upserts by the member's case-insensitive
id key, so adding the same member twice — in one request (first
conjunct, with any case combination of the id) or across two requests
(second conjunct) — leaves exactly one membership entry for that id.
The hypotheses are the implicit preconditions of a successful add (the
stub's display must not collide with the group's displayName, an error
case the spec documents separately) and the `IdOrdMap` representation
invariant (at most one entry per key). -/
theorem c5_idempotent_add (g : StoredParts Group) (v v2 d : String)
    (hd : eqIgnoreAsciiCase g.resource.displayName d = false)
    (hv : lowerStr v2 = lowerStr v)
    (huniq : countKey (membersOf g) (some (lowerStr v)) ≤ 1) :
    (∃ g2, apply_group_ops (addMembersReq [memberStub v d, memberStub v2 d]) g = .ok g2
        ∧ countKey (membersOf g2) (some (lowerStr v)) = 1)
    ∧ (∃ g2 g3, apply_group_ops (addMembersReq [memberStub v d]) g = .ok g2
        ∧ apply_group_ops (addMembersReq [memberStub v2 d]) g2 = .ok g3
        ∧ countKey (membersOf g3) (some (lowerStr v)) = 1) := by
  have hmempath : eqIgnoreAsciiCase "members" "members" = true := by decide
  have hk1 : memberKey ⟨some "User", some v⟩ = some (lowerStr v) := by
    simp [memberKey]
  have hk2 : memberKey ⟨some "User", some v2⟩ = some (lowerStr v) := by
    simp [memberKey, hv]
  have h1 : countKey (insertOverwrite (membersOf g) ⟨some "User", some v⟩)
      (some (lowerStr v)) = 1 := by
    have hc := countKey_insertOverwrite_le_one (membersOf g) ⟨some "User", some v⟩
      (by rw [hk1]; exact huniq)
    rw [hk1] at hc
    exact hc
  have h2 : countKey (insertOverwrite (insertOverwrite (membersOf g) ⟨some "User", some v⟩)
      ⟨some "User", some v2⟩) (some (lowerStr v)) = 1 := by
    have hc := countKey_insertOverwrite_le_one
      (insertOverwrite (membersOf g) ⟨some "User", some v⟩) ⟨some "User", some v2⟩
      (by rw [hk2]; omega)
    rw [hk2] at hc
    exact hc
  have hA : apply_group_ops (addMembersReq [memberStub v d]) g
      = .ok ⟨⟨g.resource.id, g.resource.displayName, g.resource.externalId,
          some (insertOverwrite (membersOf g) ⟨some "User", some v⟩)⟩, g.meta⟩ := by
    rw [apply_group_ops.eq_def, validate_schema_of_eq rfl]
    simp [addMembersReq, opsFoldGroup, applyGroupOp, apply_group_add_op, hmempath,
      addMemberStubs, memberStub, decodeMemberValueDisplay, jField, hd,
      ResourceType.display, membersOf]
  have hB : apply_group_ops (addMembersReq [memberStub v2 d])
      ⟨⟨g.resource.id, g.resource.displayName, g.resource.externalId,
          some (insertOverwrite (membersOf g) ⟨some "User", some v⟩)⟩, g.meta⟩
      = .ok ⟨⟨g.resource.id, g.resource.displayName, g.resource.externalId,
          some (insertOverwrite (insertOverwrite (membersOf g) ⟨some "User", some v⟩)
            ⟨some "User", some v2⟩)⟩, g.meta⟩ := by
    rw [apply_group_ops.eq_def, validate_schema_of_eq rfl]
    simp [addMembersReq, opsFoldGroup, applyGroupOp, apply_group_add_op, hmempath,
      addMemberStubs, memberStub, decodeMemberValueDisplay, jField, hd,
      ResourceType.display, membersOf]
  have hAB : apply_group_ops (addMembersReq [memberStub v d, memberStub v2 d]) g
      = .ok ⟨⟨g.resource.id, g.resource.displayName, g.resource.externalId,
          some (insertOverwrite (insertOverwrite (membersOf g) ⟨some "User", some v⟩)
            ⟨some "User", some v2⟩)⟩, g.meta⟩ := by
    rw [apply_group_ops.eq_def, validate_schema_of_eq rfl]
    simp [addMembersReq, opsFoldGroup, applyGroupOp, apply_group_add_op, hmempath,
      addMemberStubs, memberStub, decodeMemberValueDisplay, jField, hd,
      ResourceType.display, membersOf]
  constructor
  · exact ⟨_, hAB, h2⟩
  · exact ⟨_, _, hA, hB, h2⟩

/-- C5 witness: adding `User-1` and then `user-1` to an empty group, in
one request and across two, ends with exactly one membership entry for
that id. -/
theorem c5_idempotent_add_witness :
    (∃ g2, apply_group_ops (addMembersReq [memberStub "User-1" "jim", memberStub "user-1" "jim"])
        (groupStored "g1" "Sales" none) = .ok g2
      ∧ countKey (membersOf g2) (some (lowerStr "User-1")) = 1)
    ∧ (∃ g2 g3, apply_group_ops (addMembersReq [memberStub "User-1" "jim"])
        (groupStored "g1" "Sales" none) = .ok g2
      ∧ apply_group_ops (addMembersReq [memberStub "user-1" "jim"]) g2 = .ok g3
      ∧ countKey (membersOf g3) (some (lowerStr "User-1")) = 1) :=
  c5_idempotent_add (groupStored "g1" "Sales" none) "User-1" "user-1" "jim"
    (by decide) (by decide) (by decide)

/-- C7: the filter parser succeeds exactly on the inputs the spec
describes — after trimming and lower-casing, splitting on the literal
`" eq "` must give exactly two parts, the first exactly `username` or
`displayname` and the second a double-quoted value of length greater than
two — returning the matching constructor with the lower-cased
quote-stripped value (`filterSpecResult` is the spec's §4.1 algorithm
word for word); every other input produces an invalid-filter error. -/
theorem c7_filter_grammar (raw : String) :
    (∀ f, parse_filter_param raw = .ok f ↔ filterSpecResult raw = some f)
    ∧ (filterSpecResult raw = none →
        ∃ detail, parse_filter_param raw = .error (Error.invalid_filter detail)) := by
  rcases hp : splitOnTok " eq ".data (lowerList (trimList raw.data)) with _ | ⟨a, _ | ⟨b, _ | ⟨c, t⟩⟩⟩
  · constructor
    · intro f
      simp [parse_filter_param, filterSpecResult, hp]
    · intro _
      exact ⟨"invalid filter " ++ String.mk (lowerList (trimList raw.data)),
        by simp [parse_filter_param, hp]⟩
  · constructor
    · intro f
      simp [parse_filter_param, filterSpecResult, hp]
    · intro _
      exact ⟨"invalid filter " ++ String.mk (lowerList (trimList raw.data)),
        by simp [parse_filter_param, hp]⟩
  · by_cases hq : (b.length > 2 ∧ b.head? = some '"' ∧ b.getLast? = some '"')
    · by_cases ha : a = "username".data
      · constructor
        · intro f
          simp [parse_filter_param, filterSpecResult, hp, isQuotedValue, hq, ha]
        · intro hnone
          simp [filterSpecResult, hp, hq, ha] at hnone
      · by_cases ha2 : a = "displayname".data
        · constructor
          · intro f
            simp [parse_filter_param, filterSpecResult, hp, isQuotedValue, hq, ha, ha2]
          · intro hnone
            simp [filterSpecResult, hp, hq, ha, ha2] at hnone
        · constructor
          · intro f
            simp [parse_filter_param, filterSpecResult, hp, isQuotedValue, hq, ha, ha2]
          · intro _
            exact ⟨"filter " ++ String.mk (lowerList (trimList raw.data)) ++ " not supported",
              by simp [parse_filter_param, hp, isQuotedValue, hq, ha, ha2]⟩
    · constructor
      · intro f
        simp [parse_filter_param, filterSpecResult, hp, isQuotedValue, hq]
      · intro _
        exact ⟨"filter " ++ String.mk (lowerList (trimList raw.data)) ++ " not supported",
          by simp [parse_filter_param, hp, isQuotedValue, hq]⟩
  · constructor
    · intro f
      simp [parse_filter_param, filterSpecResult, hp]
    · intro _
      exact ⟨"invalid filter " ++ String.mk (lowerList (trimList raw.data)),
        by simp [parse_filter_param, hp]⟩

/-- C7 witness: `userName Eq "Mike"` parses to `UserNameEq "mike"` (the
iff instantiated at a succeeding input), and an unsupported-operator
filter produces an invalid-filter error. -/
theorem c7_filter_grammar_witness :
    (parse_filter_param "userName Eq \"Mike\"" = .ok (.UserNameEq "mike")
      ↔ filterSpecResult "userName Eq \"Mike\"" = some (.UserNameEq "mike"))
    ∧ (∃ detail, parse_filter_param "meta.lastModified gt \"2011-05-13T04:42:34Z\""
        = .error (Error.invalid_filter detail)) :=
  ⟨(c7_filter_grammar "userName Eq \"Mike\"").1 (.UserNameEq "mike"),
   (c7_filter_grammar "meta.lastModified gt \"2011-05-13T04:42:34Z\"").2 (by decide)⟩

/-- C9: a successful `replace_user` keeps `meta.created` and
`meta.version` of the stored user, sets `meta.last_modified` to the
current instant (so it changes whenever the instant is new), and leaves
the user's `groups` field unchanged; a successful `replace_group`
likewise keeps `created` and `version` and sets `last_modified` to the
current instant; in both cases the stored resource is the returned
one. -/
theorem c9_meta_frame :
    (∀ (st : StoreState) (uid : String) (req : CreateUserRequest) (now : Nat)
        (st2 : StoreState) (res : StoredParts User),
      replace_user st uid req now = (st2, .ok res) →
      ∃ old, mapGet st.users uid = some old
        ∧ res.meta.created = old.meta.created
        ∧ res.meta.version = old.meta.version
        ∧ res.meta.lastModified = now
        ∧ (now ≠ old.meta.lastModified → res.meta.lastModified ≠ old.meta.lastModified)
        ∧ res.resource.groups = old.resource.groups
        ∧ mapGet st2.users uid = some res)
    ∧ (∀ (st : StoreState) (gid : String) (req : CreateGroupRequest) (now : Nat)
        (st2 : StoreState) (res : StoredParts Group),
      replace_group st gid req now = (st2, .ok res) →
      ∃ old, mapGet st.groups gid = some old
        ∧ res.meta.created = old.meta.created
        ∧ res.meta.version = old.meta.version
        ∧ res.meta.lastModified = now
        ∧ (now ≠ old.meta.lastModified → res.meta.lastModified ≠ old.meta.lastModified)
        ∧ mapGet st2.groups gid = some res) := by
  constructor
  · intro st uid req now st2 res h
    unfold replace_user at h
    split at h
    · exact absurd h (by simp)
    · split at h
      · exact absurd h (by simp)
      · rename_i old hold
        simp only [Prod.mk.injEq, Except.ok.injEq] at h
        obtain ⟨hst2, hres⟩ := h
        subst hres
        refine ⟨old, hold, rfl, rfl, rfl, fun hne => hne, rfl, ?_⟩
        rw [← hst2]
        simp [mapGet_mapModify_self, hold]
  · intro st gid req now st2 res h
    unfold replace_group at h
    split at h
    · exact absurd h (by simp)
    · cases hm : req.members with
      | none =>
        rw [hm] at h
        obtain ⟨ex, hex, hres, husers, hget⟩ := replaceGroupFinish_ok h
        have hexst : mapGet st.groups gid = some ex := hex
        refine ⟨ex, hexst, ?_, ?_, ?_, ?_, hget⟩
        · rw [hres]
        · rw [hres]
        · rw [hres]
        · intro hne
          rw [hres]
          exact hne
      | some ms =>
        rw [hm] at h
        dsimp only at h
        cases hadd : addMembers (stripAllUsers st gid) gid req.displayName ms with
        | mk stM r =>
          rw [hadd] at h
          cases r with
          | error e => exact absurd h (by simp)
          | ok ms2 =>
            obtain ⟨ex, hex, hres, husers, hget⟩ := replaceGroupFinish_ok h
            have hgrps : stM.groups = st.groups := by
              have := addMembers_groups gid req.displayName ms (stripAllUsers st gid)
              rw [hadd] at this
              exact this
            have hexst : mapGet st.groups gid = some ex := by
              rw [← hgrps]
              exact hex
            refine ⟨ex, hexst, ?_, ?_, ?_, ?_, hget⟩
            · rw [hres]
            · rw [hres]
            · rw [hres]
            · intro hne
              rw [hres]
              exact hne

/-- C9 witness: replacing user `u1` at instant 9 keeps `created` and
`version`, stamps `last_modified` with 9, and keeps the `groups` field;
replacing group `g1` at instant 7 does the same for its meta block. -/
theorem c9_meta_frame_witness :
    (∃ old, mapGet fixStore.users "u1" = some old
      ∧ (⟨⟨"u1", "jim2", none, none, none⟩, ⟨0, 9, "W/unimplemented"⟩⟩ :
          StoredParts User).meta.created = old.meta.created
      ∧ (⟨⟨"u1", "jim2", none, none, none⟩, ⟨0, 9, "W/unimplemented"⟩⟩ :
          StoredParts User).meta.version = old.meta.version
      ∧ (⟨⟨"u1", "jim2", none, none, none⟩, ⟨0, 9, "W/unimplemented"⟩⟩ :
          StoredParts User).meta.lastModified = 9
      ∧ (9 ≠ old.meta.lastModified →
          (⟨⟨"u1", "jim2", none, none, none⟩, ⟨0, 9, "W/unimplemented"⟩⟩ :
            StoredParts User).meta.lastModified ≠ old.meta.lastModified)
      ∧ (⟨⟨"u1", "jim2", none, none, none⟩, ⟨0, 9, "W/unimplemented"⟩⟩ :
          StoredParts User).resource.groups = old.resource.groups
      ∧ mapGet (replace_user fixStore "u1" ⟨"jim2", none, none⟩ 9).1.users "u1"
          = some ⟨⟨"u1", "jim2", none, none, none⟩, ⟨0, 9, "W/unimplemented"⟩⟩)
    ∧ (∃ old, mapGet fixStore.groups "g1" = some old
      ∧ fixGroupAfter.meta.created = old.meta.created
      ∧ fixGroupAfter.meta.version = old.meta.version
      ∧ fixGroupAfter.meta.lastModified = 7
      ∧ (7 ≠ old.meta.lastModified →
          fixGroupAfter.meta.lastModified ≠ old.meta.lastModified)
      ∧ mapGet (replace_group fixStore "g1" fixReq 7).1.groups "g1" = some fixGroupAfter) :=
  ⟨c9_meta_frame.1 fixStore "u1" ⟨"jim2", none, none⟩ 9 _
      ⟨⟨"u1", "jim2", none, none, none⟩, ⟨0, 9, "W/unimplemented"⟩⟩ (by decide),
   c9_meta_frame.2 fixStore "g1" fixReq 7 _ fixGroupAfter (by decide)⟩

/-- C1: the store maintains the two sides of the membership relation
together.  After a successful `replace_group` on `G`, a user's reverse
membership list references `G` if and only if the stored group's forward
member list references that user (first conjunct — in particular, after
`replace_group(G, [A, B])` both `A` and `B` reference `G`, and after a
subsequent `replace_group(G, [A])` only `A` does, since the old reverse
references were stripped first); after a successful `delete_group_by_id`
no user references `G` at all (second conjunct). -/
theorem c1_bidirectional_membership :
    (∀ (st : StoreState) (gid : String) (req : CreateGroupRequest) (now : Nat)
        (st2 : StoreState) (res : StoredParts Group),
      replace_group st gid req now = (st2, .ok res) →
      ∀ uid, (userRefs st2 uid gid ↔ ∃ m ∈ groupMembersOf st2 gid, m.value = some uid))
    ∧ (∀ (st : StoreState) (gid : String) (st2 : StoreState),
      delete_group_by_id st gid = (st2, .Deleted) →
      ∀ uid, ¬ userRefs st2 uid gid) := by
  constructor
  · intro st gid req now st2 res h uid
    unfold replace_group at h
    split at h
    · exact absurd h (by simp)
    · cases hm : req.members with
      | none =>
        rw [hm] at h
        obtain ⟨ex, hex, hres, husers, hget⟩ := replaceGroupFinish_ok h
        have hmembers : groupMembersOf st2 gid = [] := by
          simp [groupMembersOf, hget, hres, membersOf]
        rw [hmembers]
        simp only [List.not_mem_nil, false_and, exists_false, iff_false]
        rw [userRefs_congr husers]
        exact not_userRefs_stripAllUsers st gid uid
      | some ms =>
        rw [hm] at h
        dsimp only at h
        cases hadd : addMembers (stripAllUsers st gid) gid req.displayName ms with
        | mk stM r =>
          rw [hadd] at h
          cases r with
          | error e => exact absurd h (by simp)
          | ok ms2 =>
            obtain ⟨ex, hex, hres, husers, hget⟩ := replaceGroupFinish_ok h
            have hmembers : groupMembersOf st2 gid = ms2 := by
              simp [groupMembersOf, hget, hres, membersOf]
            rw [hmembers]
            rw [userRefs_congr husers]
            rw [addMembers_ok_refs hadd uid]
            have hstrip := not_userRefs_stripAllUsers st gid uid
            have hvals := addMembers_ok_values hadd
            rw [exists_value_iff_of_map_eq hvals.symm (some uid)]
            constructor
            · rintro (href | hex2)
              · exact absurd href hstrip
              · exact hex2
            · intro hex2
              exact Or.inr hex2
  · intro st gid st2 h uid
    unfold delete_group_by_id at h
    split at h
    · simp only [Prod.mk.injEq] at h
      rw [← h.1]
      exact not_userRefs_stripAllUsers _ gid uid
    · exact absurd h (by simp)

/-- C1 witness: after `replace_group fixStore "g1" fixReq 7` succeeds,
user `u1` references `g1` exactly as `g1`'s member list references `u1`;
after deleting `g1` from the linked store, `u1` no longer references
it. -/
theorem c1_bidirectional_membership_witness :
    (userRefs fixStoreAfter "u1" "g1"
      ↔ ∃ m ∈ groupMembersOf fixStoreAfter "g1", m.value = some "u1")
    ∧ ¬ userRefs (delete_group_by_id fixLinkedStore "g1").1 "u1" "g1" :=
  ⟨c1_bidirectional_membership.1 fixStore "g1" fixReq 7 fixStoreAfter fixGroupAfter
      (by decide) "u1",
   c1_bidirectional_membership.2 fixLinkedStore "g1" _ (by decide) "u1"⟩

end Scim
